import Mathlib

/-!
# Training-request approval workflow: shallow embedding

A shallow embedding of the training-request workflow engine from
`backend/app/routes/training_requests.py` (four route handlers:
`create_training_request`, `get_my_training_requests`,
`get_pending_requests`, `respond_to_request`) together with the table
shape from `backend/create_training_requests_table.py`.

The database is modelled as an explicit `DB` value; each handler becomes a
pure function from a `DB` (plus the authenticated caller and the request
payload) to a new `DB` paired with an `Except` result.  Timestamps are
`Nat`s supplied by the caller (`datetime.utcnow()` becomes a `now`
parameter); the `SERIAL` id column becomes a `newId` parameter.
-/

/-- A row of the `training_requests` table (see the `CREATE TABLE` in
`create_training_requests_table.py`). `manager_notes TEXT` and
`response_date TIMESTAMP` are nullable, hence `Option`. -/
structure TrainingRequest where
  id : Nat
  training_id : Nat
  employee_empid : String
  manager_empid : String
  request_date : Nat
  status : String
  manager_notes : Option String
  response_date : Option Nat
deriving DecidableEq, Repr

/-- A row of the assignments table created on approval: `respond_to_request`
builds `TrainingAssignment(training_id=..., employee_empid=..., manager_empid=...)`. -/
structure TrainingAssignment where
  training_id : Nat
  employee_empid : String
  manager_empid : String
deriving DecidableEq, Repr

/-- A directory row: maps an employee to their manager and carries the
employee's display name (`ManagerEmployee.employee_name`, used by the
pending-requests join). -/
structure ManagerEmployee where
  employee_empid : String
  manager_empid : String
  employee_name : String
deriving DecidableEq, Repr

/-- The store.  `trainings` keeps only the `TrainingDetail` ids, the sole
attribute the workflow reads (existence checks). -/
structure DB where
  trainings : List Nat
  managerRel : List ManagerEmployee
  requests : List TrainingRequest
  assignments : List TrainingAssignment
deriving DecidableEq, Repr

/-- The error taxonomy of the four handlers, one constructor per
`HTTPException` site in `training_requests.py`.  `validationFailed` models
the framework-level rejection of an out-of-range `status` by the
`TrainingRequestUpdate` input schema (see `respondValidated`). -/
inductive WfError where
  | unauthenticated
  | notFoundTraining
  | notFoundManager
  | notFoundRequest
  | conflictDuplicate
  | forbidden
  | conflictAlreadyResponded
  | notFoundAfterUpdate
  | validationFailed
deriving DecidableEq, Repr

/-- `POST /training-requests/` (`create_training_request`): auth check, then
training-existence check, manager lookup, duplicate check, insert.
`scalar_one_or_none` over a `WHERE` clause is `List.find?`. -/
def create_training_request (db : DB) (current_username : Option String)
    (training_id : Nat) (now : Nat) (newId : Nat) :
    DB × Except WfError TrainingRequest :=
  match current_username with
  | none => (db, .error .unauthenticated)
  | some u =>
    if u = "" then (db, .error .unauthenticated)
    else if (db.trainings.find? (fun t => t == training_id)).isNone then
      (db, .error .notFoundTraining)
    else match db.managerRel.find? (fun me => me.employee_empid == u) with
      | none => (db, .error .notFoundManager)
      | some mrel =>
        if (db.requests.find?
              (fun r => r.training_id == training_id && r.employee_empid == u)).isSome then
          (db, .error .conflictDuplicate)
        else
          let newReq : TrainingRequest :=
            { id := newId, training_id := training_id, employee_empid := u,
              manager_empid := mrel.manager_empid, request_date := now,
              status := "pending", manager_notes := none, response_date := none }
          ({ db with requests := db.requests ++ [newReq] }, .ok newReq)

/-- Insert into a list sorted by `key` descending, keeping earlier elements
first on ties (the embedding of `ORDER BY request_date DESC`). -/
def insertDescBy (key : α → Nat) (x : α) : List α → List α
  | [] => [x]
  | y :: ys => if key y < key x then x :: y :: ys else y :: insertDescBy key x ys

/-- Sort a list by `key` descending. -/
def sortDescBy (key : α → Nat) : List α → List α
  | [] => []
  | x :: xs => insertDescBy key x (sortDescBy key xs)

/-- `GET /training-requests/my` (`get_my_training_requests`): all requests of
the caller, ordered by `request_date` descending. -/
def get_my_training_requests (db : DB) (current_username : Option String) :
    Except WfError (List TrainingRequest) :=
  match current_username with
  | none => .error .unauthenticated
  | some u =>
    if u = "" then .error .unauthenticated
    else .ok (sortDescBy (fun r => r.request_date)
      (db.requests.filter (fun r => r.employee_empid == u)))

/-- One element of the pending-requests (and respond) response: the request
plus the nested employee projection the handlers assemble
(`{"username": ..., "name": ...}`).  `employee_username` comes from the
request's `employee` relationship; since `employee_empid` is a foreign key
onto `users.username` (migration script), it equals `employee_empid`.
`employee_name` comes from the joined `ManagerEmployee.employee_name`. -/
structure ResponseRow where
  request : TrainingRequest
  employee_username : String
  employee_name : String
deriving DecidableEq, Repr

/-- The inner join `TrainingRequest ⋈ ManagerEmployee` on
`employee_empid`, restricted to the caller's pending requests: one output
row per matching (request, directory-row) pair. -/
def pendingJoinRows (db : DB) (u : String) : List ResponseRow :=
  (db.requests.filter (fun r => r.manager_empid == u && r.status == "pending")).flatMap
    (fun r =>
      (db.managerRel.filter (fun me => me.employee_empid == r.employee_empid)).map
        (fun me => ⟨r, r.employee_empid, me.employee_name⟩))

/-- `GET /training-requests/pending` (`get_pending_requests`): join with
`ManagerEmployee`, filter on `manager_empid == caller` and
`status == 'pending'`, order by `request_date` descending. -/
def get_pending_requests (db : DB) (current_username : Option String) :
    Except WfError (List ResponseRow) :=
  match current_username with
  | none => .error .unauthenticated
  | some u =>
    if u = "" then .error .unauthenticated
    else .ok (sortDescBy (fun row => row.request.request_date) (pendingJoinRows db u))

/-- The field updates of a response: `request.status = ...`,
`request.manager_notes = ...`, `request.response_date = datetime.utcnow()`. -/
def applyResponse (req : TrainingRequest) (s : String) (notes : Option String)
    (now : Nat) : TrainingRequest :=
  { req with status := s, manager_notes := notes, response_date := some now }

/-- The assignment row built on approval, fields copied from the request. -/
def mkAssignment (req : TrainingRequest) : TrainingAssignment :=
  ⟨req.training_id, req.employee_empid, req.manager_empid⟩

/-- The committed `UPDATE` of the request row identified by `rid`. -/
def updateRequests (l : List TrainingRequest) (rid : Nat) (upd : TrainingRequest) :
    List TrainingRequest :=
  l.map (fun r => if r.id == rid then upd else r)

/-- `PUT /training-requests/{id}/respond` up to and including the commit:
auth check, fetch by id, manager check, pending check, field updates,
conditional assignment insert, `db.commit()`.  Returns the updated request. -/
def respondCore (db : DB) (current_username : Option String) (request_id : Nat)
    (new_status : String) (notes : Option String) (now : Nat) :
    DB × Except WfError TrainingRequest :=
  match current_username with
  | none => (db, .error .unauthenticated)
  | some u =>
    if u = "" then (db, .error .unauthenticated)
    else match db.requests.find? (fun r => r.id == request_id) with
      | none => (db, .error .notFoundRequest)
      | some request =>
        if request.manager_empid ≠ u then (db, .error .forbidden)
        else if request.status ≠ "pending" then (db, .error .conflictAlreadyResponded)
        else
          let updated := applyResponse request new_status notes now
          ({ db with
              requests := updateRequests db.requests request.id updated,
              assignments :=
                if new_status = "approved" then db.assignments ++ [mkAssignment request]
                else db.assignments },
           .ok updated)

/-- `PUT /training-requests/{id}/respond` (`respond_to_request`) in full:
`respondCore`, then the post-commit re-fetch joining `ManagerEmployee`
(`.first()` of the joined rows), which assembles the response row or raises
the defensive `NotFound` — after the commit, so the first component already
carries the committed state. -/
def respond_to_request (db : DB) (current_username : Option String)
    (request_id : Nat) (new_status : String) (notes : Option String) (now : Nat) :
    DB × Except WfError ResponseRow :=
  match respondCore db current_username request_id new_status notes now with
  | (db', .error e) => (db', .error e)
  | (db', .ok updated) =>
    match db'.requests.find? (fun r => r.id == updated.id) with
    | none => (db', .error .notFoundAfterUpdate)
    | some tr =>
      match db'.managerRel.find? (fun me => me.employee_empid == tr.employee_empid) with
      | none => (db', .error .notFoundAfterUpdate)
      | some me => (db', .ok ⟨tr, tr.employee_empid, me.employee_name⟩)

/-- Modelled from the spec: the `TrainingRequestUpdate` input schema
(`app/schemas.py`, not present under `src/`), which per §4.4 restricts the
submitted `status` to `approved` or `rejected`; an out-of-range value is
rejected before the handler runs and the store is untouched. -/
def respondValidated (db : DB) (current_username : Option String) (request_id : Nat)
    (new_status : String) (notes : Option String) (now : Nat) :
    DB × Except WfError ResponseRow :=
  if new_status = "approved" ∨ new_status = "rejected" then
    respond_to_request db current_username request_id new_status notes now
  else (db, .error .validationFailed)

/-- The legal values of `TrainingRequest.status`. -/
def goodStatus (s : String) : Prop :=
  s = "pending" ∨ s = "approved" ∨ s = "rejected"

instance (s : String) : Decidable (goodStatus s) := by
  unfold goodStatus; infer_instance

/-- Every request row carries a legal status. -/
def statusOk (db : DB) : Prop := ∀ r ∈ db.requests, goodStatus r.status

instance (db : DB) : Decidable (statusOk db) := by
  unfold statusOk; infer_instance

/-- Request ids are pairwise distinct (`id SERIAL PRIMARY KEY`). -/
def uniqueIds (db : DB) : Prop :=
  db.requests.Pairwise (fun a b => a.id ≠ b.id)

instance (db : DB) : Decidable (uniqueIds db) := by
  unfold uniqueIds; infer_instance

/-! ## Concrete stores used to instantiate the theorems -/

/-- A pending request: employee `e1` asked for training `5`, routed to
manager `m1`. -/
def reqPending : TrainingRequest :=
  { id := 1, training_id := 5, employee_empid := "e1", manager_empid := "m1",
    request_date := 0, status := "pending", manager_notes := none,
    response_date := none }

/-- Directory row: `e1` reports to `m1`, display name `Alice`. -/
def meAlice : ManagerEmployee := ⟨"e1", "m1", "Alice"⟩

/-- Store before any request: training `5` exists and `e1` has a manager. -/
def dbBase : DB :=
  { trainings := [5], managerRel := [meAlice], requests := [], assignments := [] }

/-- Store holding the pending request, directory row present. -/
def dbPend : DB := { dbBase with requests := [reqPending] }

/-- Store holding the pending request but no directory row for `e1` (the
directory is external and mutable outside this workflow). -/
def dbNoDir : DB :=
  { trainings := [5], managerRel := [], requests := [reqPending], assignments := [] }

/-! ## Sorting lemmas -/

theorem mem_insertDescBy (key : α → Nat) (x a : α) (l : List α) :
    a ∈ insertDescBy key x l ↔ a = x ∨ a ∈ l := by
  induction l with
  | nil => simp [insertDescBy]
  | cons y ys ih =>
    simp only [insertDescBy]
    split
    · simp
    · simp [ih]; tauto

theorem perm_insertDescBy (key : α → Nat) (x : α) (l : List α) :
    List.Perm (insertDescBy key x l) (x :: l) := by
  induction l with
  | nil => simp [insertDescBy]
  | cons y ys ih =>
    simp only [insertDescBy]
    split
    · exact List.Perm.refl _
    · exact (ih.cons y).trans (List.Perm.swap x y ys)

theorem perm_sortDescBy (key : α → Nat) (l : List α) :
    List.Perm (sortDescBy key l) l := by
  induction l with
  | nil => exact List.Perm.refl _
  | cons x xs ih =>
    exact (perm_insertDescBy key x (sortDescBy key xs)).trans (ih.cons x)

theorem mem_sortDescBy (key : α → Nat) (a : α) (l : List α) :
    a ∈ sortDescBy key l ↔ a ∈ l :=
  (perm_sortDescBy key l).mem_iff

theorem sorted_insertDescBy (key : α → Nat) (x : α) (l : List α)
    (h : l.Pairwise (fun a b => key b ≤ key a)) :
    (insertDescBy key x l).Pairwise (fun a b => key b ≤ key a) := by
  induction l with
  | nil => simp [insertDescBy]
  | cons y ys ih =>
    rcases List.pairwise_cons.mp h with ⟨hy, hys⟩
    simp only [insertDescBy]
    split
    · rename_i hlt
      refine List.pairwise_cons.mpr ⟨?_, h⟩
      intro z hz
      rcases List.mem_cons.mp hz with rfl | hz
      · exact Nat.le_of_lt hlt
      · exact Nat.le_trans (hy z hz) (Nat.le_of_lt hlt)
    · rename_i hnlt
      refine List.pairwise_cons.mpr ⟨?_, ih hys⟩
      intro z hz
      rcases (mem_insertDescBy key x z ys).mp hz with hzx | hz
      · subst hzx; exact Nat.le_of_not_lt hnlt
      · exact hy z hz

theorem sorted_sortDescBy (key : α → Nat) (l : List α) :
    (sortDescBy key l).Pairwise (fun a b => key b ≤ key a) := by
  induction l with
  | nil => simp [sortDescBy]
  | cons x xs ih => exact sorted_insertDescBy key x _ ih

/-! ## Core lemmas about `respondCore` and `respond_to_request` -/

/-- On the success path (authenticated manager of a pending request) the
commit updates the request row and conditionally appends the assignment. -/
theorem respondCore_run (db : DB) (req : TrainingRequest) (u : String)
    (rid : Nat) (s : String) (notes : Option String) (now : Nat)
    (hu : u ≠ "")
    (hfind : db.requests.find? (fun r => r.id == rid) = some req)
    (hmgr : req.manager_empid = u) (hpend : req.status = "pending") :
    respondCore db (some u) rid s notes now =
      ({ db with
          requests := updateRequests db.requests req.id (applyResponse req s notes now),
          assignments :=
            if s = "approved" then db.assignments ++ [mkAssignment req]
            else db.assignments },
       .ok (applyResponse req s notes now)) := by
  simp [respondCore, hu, hfind, hmgr, hpend]

/-- The store returned by the full handler is the store committed by
`respondCore`: the re-fetch only assembles the response. -/
theorem respond_to_request_fst (db : DB) (u : Option String) (rid : Nat)
    (s : String) (notes : Option String) (now : Nat) :
    (respond_to_request db u rid s notes now).1 = (respondCore db u rid s notes now).1 := by
  rcases h : respondCore db u rid s notes now with ⟨db', res⟩
  unfold respond_to_request
  rw [h]
  cases res with
  | error e => rfl
  | ok upd =>
    simp only
    split
    · rfl
    · split
      · rfl
      · rfl

/-- Re-fetching the updated row by its id after the `UPDATE` finds the
updated value. -/
theorem find?_updateRequests (l : List TrainingRequest) (rid : Nat)
    (upd : TrainingRequest) (hupd : upd.id = rid)
    (h : (l.find? (fun r => r.id == rid)).isSome = true) :
    (updateRequests l rid upd).find? (fun r => r.id == rid) = some upd := by
  induction l with
  | nil => simp at h
  | cons x xs ih =>
    simp only [updateRequests, List.map_cons] at *
    cases hx : (x.id == rid) with
    | true => simp [List.find?_cons, hx, hupd]
    | false =>
      simp only [hx, if_false, Bool.false_eq_true]
      rw [List.find?_cons_of_neg _ (by simp [hx]), ih]
      rw [List.find?_cons_of_neg _ (by simp [hx])] at h
      exact h


/-! ## Core lemmas about `create_training_request` -/

theorem create_ok_inv (db db' : DB) (u : String) (tid now nid : Nat)
    (r : TrainingRequest)
    (h : create_training_request db (some u) tid now nid = (db', .ok r)) :
    u ≠ "" ∧
    (∃ t0, db.trainings.find? (fun t => t == tid) = some t0) ∧
    (∃ mrel, db.managerRel.find? (fun me => me.employee_empid == u) = some mrel ∧
      r = { id := nid, training_id := tid, employee_empid := u,
            manager_empid := mrel.manager_empid, request_date := now,
            status := "pending", manager_notes := none, response_date := none }) ∧
    db.requests.find? (fun q => q.training_id == tid && q.employee_empid == u) = none ∧
    db' = { db with requests := db.requests ++ [r] } := by
  by_cases hu : u = ""
  · simp [create_training_request, hu] at h
  · rcases htr : db.trainings.find? (fun t => t == tid) with _ | t0
    · simp [create_training_request, hu, htr] at h
    · rcases hm : db.managerRel.find? (fun me => me.employee_empid == u) with _ | mrel
      · simp [create_training_request, hu, htr, hm] at h
      · rcases hdup : db.requests.find?
            (fun q => q.training_id == tid && q.employee_empid == u) with _ | q
        · simp only [create_training_request, if_neg hu, htr, hm, hdup,
            Option.isNone_some, Bool.false_eq_true, if_false, Option.isSome_none] at h
          rw [Prod.mk.injEq] at h
          obtain ⟨hdb, hok⟩ := h
          rw [Except.ok.injEq] at hok
          subst hok
          subst hdb
          exact ⟨hu, ⟨t0, rfl⟩, ⟨mrel, hm, rfl⟩, hdup, rfl⟩
        · simp [create_training_request, hu, htr, hm, hdup] at h

theorem create_dup_run (db : DB) (u : String) (tid now nid : Nat)
    (t0 : Nat) (mrel : ManagerEmployee) (q : TrainingRequest)
    (hu : u ≠ "")
    (htr : db.trainings.find? (fun t => t == tid) = some t0)
    (hm : db.managerRel.find? (fun me => me.employee_empid == u) = some mrel)
    (hq : q ∈ db.requests) (hq1 : q.training_id = tid) (hq2 : q.employee_empid = u) :
    create_training_request db (some u) tid now nid = (db, .error .conflictDuplicate) := by
  have hdup : (db.requests.find?
      (fun r => r.training_id == tid && r.employee_empid == u)).isSome = true := by
    rw [List.find?_isSome]
    exact ⟨q, hq, by simp [hq1, hq2]⟩
  simp only [create_training_request, if_neg hu, htr, hm, hdup,
    Option.isNone_some, Bool.false_eq_true, if_false, if_true]

/-! ## Claim theorems -/

/-- Claim C8: a create call whose `training_id` references no existing
training fails with `NotFound("training")` and inserts no row; since the
directory and request stores are arbitrary here (the employee may lack a
manager, a duplicate may exist), the training check precedes the
manager-resolution and duplicate checks. -/
theorem create_missing_training_notFound (db : DB) (u : String) (tid now nid : Nat)
    (hu : u ≠ "") (htr : db.trainings.find? (fun t => t == tid) = none) :
    create_training_request db (some u) tid now nid = (db, .error .notFoundTraining) := by
  simp [create_training_request, hu, htr]

theorem create_missing_training_notFound_witness :
    create_training_request dbBase (some "e2") 7 0 1 = (dbBase, .error .notFoundTraining) :=
  create_missing_training_notFound dbBase "e2" 7 0 1 (by decide) rfl

/-- Claim C7: every successful create yields a request with status
`pending` whose `manager_empid` is the directory's resolution for the
requesting employee at creation time, and appends exactly that row. -/
theorem create_sets_pending_and_manager (db db' : DB) (u : String)
    (tid now nid : Nat) (r : TrainingRequest)
    (h : create_training_request db (some u) tid now nid = (db', .ok r)) :
    r.status = "pending" ∧
    (∃ mrel, db.managerRel.find? (fun me => me.employee_empid == u) = some mrel ∧
      r.manager_empid = mrel.manager_empid) ∧
    db'.requests = db.requests ++ [r] := by
  obtain ⟨hu, ⟨t0, htr⟩, ⟨mrel, hm, hr⟩, hdup, hdb⟩ :=
    create_ok_inv db db' u tid now nid r h
  subst hr
  subst hdb
  exact ⟨rfl, ⟨mrel, hm, rfl⟩, rfl⟩

theorem create_sets_pending_and_manager_witness :
    reqPending.status = "pending" ∧
    (∃ mrel, dbBase.managerRel.find? (fun me => me.employee_empid == "e1") = some mrel ∧
      reqPending.manager_empid = mrel.manager_empid) ∧
    dbPend.requests = dbBase.requests ++ [reqPending] :=
  create_sets_pending_and_manager dbBase dbPend "e1" 5 0 1 reqPending rfl

/-- Claim C3: once a request row for `(training_id, employee_empid)` exists
— in particular right after a successful create, and whatever the row's
status — a further create for the same pair by the same employee fails with
`Conflict` and inserts nothing, so two identical creates leave exactly one
persisted row. -/
theorem create_twice_conflict (db db₁ : DB) (E : String)
    (tid now₁ nid₁ now₂ nid₂ : Nat) (r : TrainingRequest)
    (hsucc : create_training_request db (some E) tid now₁ nid₁ = (db₁, .ok r)) :
    create_training_request db₁ (some E) tid now₂ nid₂ =
      (db₁, .error .conflictDuplicate) ∧
    (db₁.requests.filter
      (fun q => q.training_id == tid && q.employee_empid == E)).length = 1 ∧
    (∀ db₂ : DB, ∀ q ∈ db₂.requests, q.training_id = tid → q.employee_empid = E →
      (∃ t1, db₂.trainings.find? (fun t => t == tid) = some t1) →
      (∃ mrel, db₂.managerRel.find? (fun me => me.employee_empid == E) = some mrel) →
      ∀ now₃ nid₃, create_training_request db₂ (some E) tid now₃ nid₃ =
        (db₂, .error .conflictDuplicate)) := by
  obtain ⟨hE, ⟨t0, htr⟩, ⟨mrel, hm, hr⟩, hdup, hdb⟩ :=
    create_ok_inv db db₁ E tid now₁ nid₁ r hsucc
  subst hr
  subst hdb
  refine ⟨?_, ?_, ?_⟩
  · exact create_dup_run _ E tid now₂ nid₂ t0 mrel
      { id := nid₁, training_id := tid, employee_empid := E,
        manager_empid := mrel.manager_empid, request_date := now₁,
        status := "pending", manager_notes := none, response_date := none }
      hE htr hm (List.mem_append_right _ (by simp)) rfl rfl
  · rw [List.filter_append]
    have h0 : db.requests.filter
        (fun q => q.training_id == tid && q.employee_empid == E) = [] := by
      rw [List.filter_eq_nil_iff]
      intro a ha
      have := List.find?_eq_none.mp hdup a ha
      simpa using this
    simp [h0]
  · rintro db₂ q hq hq1 hq2 ⟨t1, ht1⟩ ⟨mrel₂, hm₂⟩ now₃ nid₃
    exact create_dup_run db₂ E tid now₃ nid₃ t1 mrel₂ q hE ht1 hm₂ hq hq1 hq2

theorem create_twice_conflict_witness :
    create_training_request dbPend (some "e1") 5 2 3 = (dbPend, .error .conflictDuplicate) :=
  (create_twice_conflict dbBase dbPend "e1" 5 0 1 2 3 reqPending rfl).1

/-- Claim C1: responding to a pending request by its stored manager with
status `approved` sets the request's status, manager_notes and
response_date and appends exactly one assignment copying `training_id`,
`employee_empid`, `manager_empid` from the request; with status `rejected`
it performs the same field updates and appends no assignment. -/
theorem respond_approve_reject_effects (db : DB) (req : TrainingRequest)
    (u : String) (rid : Nat) (notes : Option String) (now : Nat)
    (hu : u ≠ "")
    (hfind : db.requests.find? (fun r => r.id == rid) = some req)
    (hmgr : req.manager_empid = u) (hpend : req.status = "pending") :
    ((respond_to_request db (some u) rid "approved" notes now).1.requests =
        updateRequests db.requests req.id (applyResponse req "approved" notes now) ∧
      (respond_to_request db (some u) rid "approved" notes now).1.assignments =
        db.assignments ++ [mkAssignment req]) ∧
    ((respond_to_request db (some u) rid "rejected" notes now).1.requests =
        updateRequests db.requests req.id (applyResponse req "rejected" notes now) ∧
      (respond_to_request db (some u) rid "rejected" notes now).1.assignments =
        db.assignments) := by
  refine ⟨⟨?_, ?_⟩, ⟨?_, ?_⟩⟩ <;>
    rw [respond_to_request_fst,
      respondCore_run db req u rid _ notes now hu hfind hmgr hpend] <;>
    simp

theorem respond_approve_reject_effects_witness :
    (respond_to_request dbPend (some "m1") 1 "approved" (some "ok") 7).1.assignments =
      dbPend.assignments ++ [mkAssignment reqPending] :=
  (respond_approve_reject_effects dbPend reqPending "m1" 1 (some "ok") 7
    (by decide) rfl rfl rfl).1.2

/-- Claim C10: the handler validates nothing about the submitted status:
any string `s` is persisted verbatim on a pending request, and an
assignment is appended iff `s` is exactly `"approved"`. -/
theorem respond_persists_any_status (db : DB) (req : TrainingRequest)
    (u s : String) (rid : Nat) (notes : Option String) (now : Nat)
    (hu : u ≠ "")
    (hfind : db.requests.find? (fun r => r.id == rid) = some req)
    (hmgr : req.manager_empid = u) (hpend : req.status = "pending") :
    (respond_to_request db (some u) rid s notes now).1.requests =
      updateRequests db.requests req.id (applyResponse req s notes now) ∧
    (respond_to_request db (some u) rid s notes now).1.assignments =
      (if s = "approved" then db.assignments ++ [mkAssignment req]
       else db.assignments) := by
  refine ⟨?_, ?_⟩ <;>
    rw [respond_to_request_fst,
      respondCore_run db req u rid s notes now hu hfind hmgr hpend]

theorem respond_persists_any_status_witness :
    (respond_to_request dbPend (some "m1") 1 "maybe" none 7).1.requests =
      updateRequests dbPend.requests reqPending.id
        (applyResponse reqPending "maybe" none 7) :=
  (respond_persists_any_status dbPend reqPending "m1" "maybe" 1 none 7
    (by decide) rfl rfl rfl).1

/-- Claim C2 (amended): every respond call that fails one of the
precondition checks leaves the stores unchanged: a caller other than the
request's stored manager gets `Forbidden`, and the stored manager
responding to a non-pending request gets `Conflict`; in both cases nothing
is mutated and no assignment is created.  The defensive post-update
`NotFound` failure is the exception: it occurs after the commit, so the
transition and any assignment persist (see the counterexample). -/
theorem respond_precondition_failures_unchanged (db : DB) (req : TrainingRequest)
    (u s : String) (rid : Nat) (notes : Option String) (now : Nat)
    (hu : u ≠ "")
    (hfind : db.requests.find? (fun r => r.id == rid) = some req) :
    (req.manager_empid ≠ u →
      respond_to_request db (some u) rid s notes now = (db, .error .forbidden)) ∧
    (req.manager_empid = u → req.status ≠ "pending" →
      respond_to_request db (some u) rid s notes now =
        (db, .error .conflictAlreadyResponded)) := by
  constructor
  · intro hne
    have hcore : respondCore db (some u) rid s notes now = (db, .error .forbidden) := by
      simp [respondCore, hu, hfind, hne]
    unfold respond_to_request
    rw [hcore]
  · intro hmgr hnp
    have hcore : respondCore db (some u) rid s notes now =
        (db, .error .conflictAlreadyResponded) := by
      simp [respondCore, hu, hfind, hmgr, hnp]
    unfold respond_to_request
    rw [hcore]

theorem respond_precondition_failures_unchanged_witness :
    respond_to_request dbPend (some "mx") 1 "approved" none 7 =
      (dbPend, .error .forbidden) :=
  (respond_precondition_failures_unchanged dbPend reqPending "mx" "approved" 1 none 7
    (by decide) rfl).1 (by decide)

/-- Claim C2, counterexample to the universal as stated: this respond call
fails (it returns the defensive post-update `NotFound`), yet the stores are
mutated — the transition was committed and an assignment row persisted —
because the commit precedes the failing re-fetch and no directory row
exists for the employee. -/
theorem respond_failing_call_mutates_counterexample :
    (respond_to_request dbNoDir (some "m1") 1 "approved" none 7).2 =
      .error .notFoundAfterUpdate ∧
    (respond_to_request dbNoDir (some "m1") 1 "approved" none 7).1 ≠ dbNoDir ∧
    (respond_to_request dbNoDir (some "m1") 1 "approved" none 7).1.assignments =
      [mkAssignment reqPending] :=
  ⟨rfl, by decide, rfl⟩

/-- Joining the committed store back with `ManagerEmployee` succeeds when
both lookups succeed, yielding the assembled response row. -/
theorem respond_to_request_ok (db db' : DB) (u : Option String) (rid : Nat)
    (s : String) (notes : Option String) (now : Nat)
    (upd tr : TrainingRequest) (me : ManagerEmployee)
    (hcore : respondCore db u rid s notes now = (db', .ok upd))
    (h1 : db'.requests.find? (fun r => r.id == upd.id) = some tr)
    (h2 : db'.managerRel.find?
      (fun x => x.employee_empid == tr.employee_empid) = some me) :
    respond_to_request db u rid s notes now =
      (db', .ok ⟨tr, tr.employee_empid, me.employee_name⟩) := by
  unfold respond_to_request
  rw [hcore]
  simp only
  rw [h1]
  dsimp only
  rw [h2]

/-- Claim C5 (amended): under the three preconditions the post-update
re-fetch finds the updated request whenever the directory holds a row for
the request's employee; the defensive `NotFound` branch is unreachable in
that case (and reachable exactly when no such row exists — see the
counterexample). -/
theorem respond_refetch_finds_update (db : DB) (req : TrainingRequest)
    (me : ManagerEmployee) (u s : String) (rid : Nat) (notes : Option String)
    (now : Nat) (hu : u ≠ "")
    (hfind : db.requests.find? (fun r => r.id == rid) = some req)
    (hmgr : req.manager_empid = u) (hpend : req.status = "pending")
    (hme : db.managerRel.find?
      (fun x => x.employee_empid == req.employee_empid) = some me) :
    (respond_to_request db (some u) rid s notes now).2 =
      .ok ⟨applyResponse req s notes now, req.employee_empid, me.employee_name⟩ := by
  have hid : req.id = rid := by simpa using List.find?_some hfind
  have hsome : (db.requests.find? (fun r => r.id == req.id)).isSome = true := by
    rw [hid, hfind]; rfl
  have hfound :=
    find?_updateRequests db.requests req.id (applyResponse req s notes now) rfl hsome
  have hfull := respond_to_request_ok db
    { db with
        requests := updateRequests db.requests req.id (applyResponse req s notes now),
        assignments :=
          if s = "approved" then db.assignments ++ [mkAssignment req]
          else db.assignments }
    (some u) rid s notes now (applyResponse req s notes now)
    (applyResponse req s notes now) me
    (respondCore_run db req u rid s notes now hu hfind hmgr hpend) hfound hme
  rw [hfull]
  rfl

theorem respond_refetch_finds_update_witness :
    (respond_to_request dbPend (some "m1") 1 "approved" (some "ok") 7).2 =
      .ok ⟨applyResponse reqPending "approved" (some "ok") 7,
           reqPending.employee_empid, meAlice.employee_name⟩ :=
  respond_refetch_finds_update dbPend reqPending meAlice "m1" "approved" 1
    (some "ok") 7 (by decide) rfl rfl rfl rfl

/-- Claim C5, counterexample as stated: this request passes all three
preconditions (it exists, the caller is its stored manager, it is
pending), yet the handler returns the defensive post-update `NotFound`,
because the re-fetch inner-joins `ManagerEmployee` and the directory has no
row for the employee. -/
theorem respond_refetch_counterexample :
    dbNoDir.requests.find? (fun r => r.id == 1) = some reqPending ∧
    reqPending.manager_empid = "m1" ∧
    reqPending.status = "pending" ∧
    (respond_to_request dbNoDir (some "m1") 1 "approved" none 7).2 =
      .error .notFoundAfterUpdate :=
  ⟨rfl, rfl, rfl, rfl⟩

/-- Claim C9: `ListMyRequests(E)` returns all and only the request rows
with `employee_empid == E`, ordered by `request_date` descending. -/
theorem my_requests_exactly_own_sorted (db : DB) (u : String) (hu : u ≠ "") :
    ∃ l, get_my_training_requests db (some u) = .ok l ∧
      List.Perm l (db.requests.filter (fun r => r.employee_empid == u)) ∧
      (∀ r, r ∈ l ↔ r ∈ db.requests ∧ r.employee_empid = u) ∧
      l.Pairwise (fun a b => b.request_date ≤ a.request_date) := by
  refine ⟨sortDescBy (fun r => r.request_date)
      (db.requests.filter (fun r => r.employee_empid == u)),
    ?_, perm_sortDescBy _ _, ?_, sorted_sortDescBy _ _⟩
  · simp [get_my_training_requests, hu]
  · intro r
    rw [mem_sortDescBy, List.mem_filter]
    simp

theorem my_requests_exactly_own_sorted_witness :
    ∃ l, get_my_training_requests dbPend (some "e1") = .ok l ∧
      List.Perm l (dbPend.requests.filter (fun r => r.employee_empid == "e1")) ∧
      (∀ r, r ∈ l ↔ r ∈ dbPend.requests ∧ r.employee_empid = "e1") ∧
      l.Pairwise (fun a b => b.request_date ≤ a.request_date) :=
  my_requests_exactly_own_sorted dbPend "e1" (by decide)

/-- Claim C6 (amended): `ListPendingRequests(M)` returns exactly the
pending rows routed to `M` that have a matching directory row — the query
inner-joins `ManagerEmployee`, so a pending request whose employee lacks a
directory row is silently dropped (see the counterexample) — ordered by
`request_date` descending, and each returned row's display name is the
`employee_name` of the joined directory row. -/
theorem pending_requests_join_sorted (db : DB) (u : String) (hu : u ≠ "") :
    ∃ l, get_pending_requests db (some u) = .ok l ∧
      (∀ row, row ∈ l ↔ ∃ r ∈ db.requests, ∃ me ∈ db.managerRel,
        r.manager_empid = u ∧ r.status = "pending" ∧
        me.employee_empid = r.employee_empid ∧
        row = ⟨r, r.employee_empid, me.employee_name⟩) ∧
      l.Pairwise (fun a b => b.request.request_date ≤ a.request.request_date) := by
  refine ⟨sortDescBy (fun row => row.request.request_date) (pendingJoinRows db u),
    ?_, ?_, sorted_sortDescBy _ _⟩
  · simp [get_pending_requests, hu]
  · intro row
    rw [mem_sortDescBy]
    simp only [pendingJoinRows, List.mem_flatMap, List.mem_filter, List.mem_map,
      Bool.and_eq_true, beq_iff_eq]
    constructor
    · rintro ⟨r, ⟨hr, hmu, hst⟩, me, ⟨hme, hmee⟩, heq⟩
      exact ⟨r, hr, me, hme, hmu, hst, hmee, heq.symm⟩
    · rintro ⟨r, hr, me, hme, hmu, hst, hmee, heq⟩
      exact ⟨r, ⟨hr, hmu, hst⟩, me, ⟨hme, hmee⟩, heq.symm⟩

theorem pending_requests_join_sorted_witness :
    ∃ l, get_pending_requests dbPend (some "m1") = .ok l ∧
      (∀ row, row ∈ l ↔ ∃ r ∈ dbPend.requests, ∃ me ∈ dbPend.managerRel,
        r.manager_empid = "m1" ∧ r.status = "pending" ∧
        me.employee_empid = r.employee_empid ∧
        row = ⟨r, r.employee_empid, me.employee_name⟩) ∧
      l.Pairwise (fun a b => b.request.request_date ≤ a.request.request_date) :=
  pending_requests_join_sorted dbPend "m1" (by decide)

/-- Claim C6, counterexample as stated: `dbNoDir` holds a pending request
routed to `m1`, but the listing returns the empty list — the inner join
drops the request because its employee has no directory row, so the
listing does not return all rows with `manager_empid == M` and
`status == 'pending'`. -/
theorem pending_requests_counterexample :
    reqPending ∈ dbNoDir.requests ∧
    reqPending.manager_empid = "m1" ∧
    reqPending.status = "pending" ∧
    get_pending_requests dbNoDir (some "m1") = .ok [] :=
  ⟨by simp [dbNoDir], rfl, rfl, rfl⟩

/-- The store after a create: unchanged on any failure, or the request list
extended by one `pending` row on success. -/
theorem create_fst_inv (db : DB) (cu : Option String) (tid now nid : Nat) :
    (create_training_request db cu tid now nid).1.requests = db.requests ∨
    ∃ r, r.status = "pending" ∧
      (create_training_request db cu tid now nid).1.requests = db.requests ++ [r] := by
  cases cu with
  | none => exact Or.inl rfl
  | some u =>
    by_cases hu : u = ""
    · exact Or.inl (by simp [create_training_request, hu])
    · rcases htr : db.trainings.find? (fun t => t == tid) with _ | t0
      · exact Or.inl (by simp [create_training_request, hu, htr])
      · rcases hm : db.managerRel.find? (fun me => me.employee_empid == u) with _ | mrel
        · exact Or.inl (by simp [create_training_request, hu, htr, hm])
        · rcases hdup : db.requests.find?
              (fun q => q.training_id == tid && q.employee_empid == u) with _ | q
          · right
            exact ⟨
              { id := nid, training_id := tid, employee_empid := u,
                manager_empid := mrel.manager_empid, request_date := now,
                status := "pending", manager_notes := none, response_date := none },
              rfl, by simp [create_training_request, hu, htr, hm, hdup]⟩
          · exact Or.inl (by simp [create_training_request, hu, htr, hm, hdup])

/-- The store after the respond commit: unchanged on any precondition
failure, or the pending row found by id rewritten by `applyResponse`. -/
theorem respondCore_fst_inv (db : DB) (cu : Option String) (rid : Nat)
    (s : String) (notes : Option String) (now : Nat) :
    (respondCore db cu rid s notes now).1.requests = db.requests ∨
    ∃ req, db.requests.find? (fun r => r.id == rid) = some req ∧
      req.status = "pending" ∧
      (respondCore db cu rid s notes now).1.requests =
        updateRequests db.requests req.id (applyResponse req s notes now) := by
  cases cu with
  | none => exact Or.inl rfl
  | some u =>
    by_cases hu : u = ""
    · exact Or.inl (by simp [respondCore, hu])
    · rcases hfind : db.requests.find? (fun r => r.id == rid) with _ | req
      · exact Or.inl (by simp [respondCore, hu, hfind])
      · by_cases hne : req.manager_empid = u
        · by_cases hst : req.status = "pending"
          · exact Or.inr ⟨req, hfind, hst,
              by rw [respondCore_run db req u rid s notes now hu hfind hne hst]⟩
          · exact Or.inl (by simp [respondCore, hu, hfind, hne, hst])
        · exact Or.inl (by simp [respondCore, hu, hfind, hne])

/-- Claim C4: the status state machine.  On any store whose request ids are
distinct and whose statuses are legal: creation keeps every status legal
and only ever produces `pending` rows; the validated respond operation
(status restricted to `approved`/`rejected` by the input schema) keeps
every status legal; and a row whose status is not `pending` survives any
respond call unchanged — `approved` and `rejected` are terminal. -/
theorem status_state_machine (db : DB) (hids : uniqueIds db) (hok : statusOk db) :
    (∀ cu tid now nid, statusOk (create_training_request db cu tid now nid).1) ∧
    (∀ cu tid now nid db' r,
      create_training_request db cu tid now nid = (db', .ok r) →
        r.status = "pending") ∧
    (∀ cu rid s notes now, statusOk (respondValidated db cu rid s notes now).1) ∧
    (∀ cu rid s notes now r, r ∈ db.requests → r.status ≠ "pending" →
      r ∈ (respond_to_request db cu rid s notes now).1.requests) := by
  refine ⟨?_, ?_, ?_, ?_⟩
  · intro cu tid now nid
    rcases create_fst_inv db cu tid now nid with h | ⟨r, hrp, h⟩
    · intro x hx
      rw [h] at hx
      exact hok x hx
    · intro x hx
      rw [h] at hx
      rcases List.mem_append.mp hx with hx | hx
      · exact hok x hx
      · have hxr : x = r := List.mem_singleton.mp hx
        rw [hxr, hrp]
        exact Or.inl rfl
  · intro cu tid now nid db' r h
    cases cu with
    | none => simp [create_training_request] at h
    | some u =>
      obtain ⟨_, _, ⟨mrel, _, hr⟩, _, _⟩ := create_ok_inv db db' u tid now nid r h
      rw [hr]
  · intro cu rid s notes now
    unfold respondValidated
    split
    · rename_i hs
      rw [respond_to_request_fst]
      rcases respondCore_fst_inv db cu rid s notes now with h | ⟨req, hfind, hpend, h⟩
      · intro x hx
        rw [h] at hx
        exact hok x hx
      · intro x hx
        rw [h] at hx
        rcases List.mem_map.mp hx with ⟨a, ha, heq⟩
        by_cases hid : (a.id == req.id) = true
        · rw [if_pos hid] at heq
          rw [← heq]
          rcases hs with hs | hs
          · exact Or.inr (Or.inl hs)
          · exact Or.inr (Or.inr hs)
        · rw [if_neg hid] at heq
          rw [← heq]
          exact hok a ha
    · exact hok
  · intro cu rid s notes now r hr hnp
    rw [respond_to_request_fst]
    rcases respondCore_fst_inv db cu rid s notes now with h | ⟨req, hfind, hpend, h⟩
    · rw [h]
      exact hr
    · rw [h]
      have hreqmem : req ∈ db.requests := List.mem_of_find?_eq_some hfind
      have hneq : r ≠ req := fun he => hnp (by rw [he]; exact hpend)
      have hsym : Symmetric (fun a b : TrainingRequest => a.id ≠ b.id) :=
        fun a b hab => Ne.symm hab
      have hidne : r.id ≠ req.id :=
        List.Pairwise.forall hsym hids hr hreqmem hneq
      exact List.mem_map.mpr ⟨r, hr, if_neg (by simp [hidne])⟩

theorem status_state_machine_witness :
    statusOk (respondValidated dbPend (some "m1") 1 "approved" (some "ok") 7).1 :=
  (status_state_machine dbPend (by decide) (by decide)).2.2.1 (some "m1") 1
    "approved" (some "ok") 7
